import Mathlib

/-!
# Verification of the coinharness transaction funder and RPC connection manager

Shallow embedding of the coin-selection engine of `wallet.go`
(`CreateTransaction` / `fundTx`) and of the RPC connection manager
described in the specification.  Go `int`/`int64` arithmetic on coin
amounts and sizes is modelled by unbounded `Int` (the spec's `Amount` is
a signed integer count of atoms); Go errors are modelled by an explicit
error type, and the two fallible collaborators (`GetNewAddress`,
`PayToAddrScript`) by `Except`-valued functions.
-/

namespace Coinharness

/-- Go error values: `fmt.Errorf` with a message, collaborator-supplied
errors identified by a code, and the connection-establishment failure
wrapping the last underlying error (used by the RPC connection manager). -/
inductive GoError where
  | errorf (msg : String)
  | external (id : Nat)
  | connectFailed (last : GoError)
deriving DecidableEq, Repr

/-- `coin.Amount`: fixed-point integer amount (field `AtomsValue int64`). -/
structure Amount where
  atomsValue : Int
deriving DecidableEq, Repr

/-- `Amount.Copy()` returns a fresh value-equal amount. -/
def Amount.copy (a : Amount) : Amount := { atomsValue := a.atomsValue }

/-- Addresses are opaque to the funder; modelled by a numeric identifier. -/
abbrev Address := Nat

/-- An outpoint reference.  The Go struct literal `OutPoint{Tree: output.Tree}`
in `fundTx` sets only the `Tree` field; the transaction hash and index keep
their Go zero values, modelled here as `0`. -/
structure OutPoint where
  hash : Nat
  index : Nat
  tree : Int
deriving DecidableEq, Repr

/-- A transaction input: previous-outpoint reference plus the carried value
(`ValueIn`), needed for fee/size accounting before signing. -/
structure TxIn where
  previousOutPoint : OutPoint
  valueIn : Amount
deriving DecidableEq, Repr

/-- A transaction output: value and spending script bytes. -/
structure TxOut where
  value : Amount
  pkScript : List Nat
deriving DecidableEq, Repr

/-- `MessageTx`: the transaction skeleton, ordered inputs and outputs. -/
structure MessageTx where
  txIn : List TxIn
  txOut : List TxOut
deriving DecidableEq, Repr

/-- `Unspent`: one entry of the wallet's UTXO view, with the fields read by
`fundTx`: amount, owning account, spendability flag and the tree tag. -/
structure Unspent where
  amount : Amount
  account : String
  spendable : Bool
  tree : Int
deriving DecidableEq, Repr

/-- The two wallet-collaborator capabilities used by
`CreateTransaction`/`fundTx`: `ListUnspent` and `GetNewAddress`. -/
structure WalletModel where
  listUnspent : Except GoError (List Unspent)
  getNewAddress : String → Except GoError Address

/-- `CreateTransactionArgs` (the fields of the Go struct; the two function
fields `PayToAddrScript` and `TxSerializeSize` are caller-supplied). -/
structure CreateTransactionArgs where
  outputs : List TxOut
  feeRate : Amount
  change : Bool
  txVersion : Int
  payToAddrScript : Address → Except GoError (List Nat)
  txSerializeSize : MessageTx → Int
  account : String

/-- `spendSize`: largest number of bytes of a sigScript spending a p2pkh
output: `OP_DATA_73 <sig> OP_DATA_33 <pubkey>`. -/
def spendSize : Int := 1 + 73 + 1 + 33

/-- The error built by `fundTx` when coin selection exhausts the UTXO list. -/
def insufficientFundsErr : GoError :=
  .errorf "not enough funds for coin selection"

/-- The input constructed by `fundTx` from a selected UTXO: the outpoint
carries only the UTXO's tree tag (hash and index stay at their zero
values) and `ValueIn` is a copy of the UTXO's amount. -/
def mkTxIn (u : Unspent) : TxIn :=
  { previousOutPoint := { hash := 0, index := 0, tree := u.tree }
    valueIn := u.amount.copy }

/-- The final block of `fundTx` (lines 251–268): if any change is left
over, request one fresh address, build its script and append the change
output.  The returned `Nat` counts the `GetNewAddress` calls made (the
effect trace of the wallet collaborator: `1` on the change path, `0`
otherwise). -/
def fundTxFinish (wallet : WalletModel)
    (pay : Address → Except GoError (List Nat))
    (account : String) (changeVal : Int) (tx : MessageTx) :
    Except GoError (MessageTx × Nat) :=
  if changeVal > 0 then
    match wallet.getNewAddress account with
    | .error e => .error e
    | .ok addr =>
      match pay addr with
      | .error e => .error e
      | .ok pkScript =>
        .ok ({ tx with
               txOut := tx.txOut ++ [{ value := { atomsValue := changeVal }
                                       pkScript := pkScript }] }, 1)
  else
    .ok (tx, 0)

/-- The selection loop of `fundTx` (lines 216–274), with the mutable Go
state (`amtSelected`, the in-progress `tx`) passed explicitly.  Skips
non-spendable and account-mismatched outputs; otherwise appends the
output as an input, recomputes size and required fee, and stops as soon
as `amtSelected - reqFee` reaches the target, finishing via
`fundTxFinish`; an exhausted list yields the insufficient-funds error. -/
def fundTxFrom (wallet : WalletModel) (account : String)
    (amt feeRate : Int)
    (pay : Address → Except GoError (List Nat))
    (ser : MessageTx → Int) :
    List Unspent → Int → MessageTx → Except GoError (MessageTx × Nat)
  | [], _, _ => .error insufficientFundsErr
  | u :: rest, amtSelected, tx =>
    if !u.spendable then
      fundTxFrom wallet account amt feeRate pay ser rest amtSelected tx
    else if u.account != account then
      fundTxFrom wallet account amt feeRate pay ser rest amtSelected tx
    else
      let amtSelected1 := amtSelected + u.amount.atomsValue
      let tx1 : MessageTx := { tx with txIn := tx.txIn ++ [mkTxIn u] }
      let txSize := ser tx1 + spendSize * tx1.txIn.length
      let reqFee := txSize * feeRate
      let collected := amtSelected1 - reqFee
      if collected < amt then
        fundTxFrom wallet account amt feeRate pay ser rest amtSelected1 tx1
      else
        let changeVal := amtSelected1 - amt - reqFee
        fundTxFinish wallet pay account changeVal tx1

/-- `fundTx` (lines 194–275): funds `tx` from the given UTXO list,
starting from an empty selection.  The Go function asserts up front that
the two function arguments are non-nil and the account name non-empty
(panicking otherwise); theorems about successful runs carry the
corresponding preconditions.  On success the result pairs the funded
skeleton with the number of `GetNewAddress` calls made. -/
def fundTx (wallet : WalletModel) (account : String)
    (unspent : List Unspent) (tx : MessageTx) (amt feeRate : Amount)
    (pay : Address → Except GoError (List Nat))
    (ser : MessageTx → Int) : Except GoError (MessageTx × Nat) :=
  fundTxFrom wallet account amt.atomsValue feeRate.atomsValue pay ser
    unspent 0 tx

/-- Sum of the `Value` fields of a list of outputs (the `outputAmt` tally
of `CreateTransaction`). -/
def sumValueOut (l : List TxOut) : Int :=
  (l.map fun o => o.value.atomsValue).sum

/-- Sum of the `ValueIn` fields of a list of inputs. -/
def sumValueIn (l : List TxIn) : Int :=
  (l.map fun i => i.valueIn.atomsValue).sum

/-- `CreateTransaction` (lines 155–186): lists unspent outputs, seeds the
skeleton's outputs with the desired outputs while tallying the target
amount, and funds the transaction; any error is returned with no
skeleton (`Except.error` models Go's `(nil, err)`). -/
def CreateTransaction (wallet : WalletModel)
    (args : CreateTransactionArgs) : Except GoError MessageTx :=
  match wallet.listUnspent with
  | .error e => .error e
  | .ok unspent =>
    let outputAmt : Amount := { atomsValue := sumValueOut args.outputs }
    let tx : MessageTx := { txIn := [], txOut := args.outputs }
    match fundTx wallet args.account unspent tx outputAmt args.feeRate
        args.payToAddrScript args.txSerializeSize with
    | .error e => .error e
    | .ok (tx1, _) => .ok tx1

/-- The eligibility test applied by the selection loop: the two `continue`
guards of `fundTx` combined (spendable and account-matching). -/
def eligible (account : String) (u : Unspent) : Bool :=
  u.spendable && (u.account == account)

/-- Total amount carried by a list of UTXOs. -/
def selAmount (l : List Unspent) : Int :=
  (l.map fun u => u.amount.atomsValue).sum

/-- The skeleton obtained from `tx` by appending the inputs built from a
list of selected UTXOs. -/
def txWithInputs (tx : MessageTx) (sel : List Unspent) : MessageTx :=
  { tx with txIn := tx.txIn ++ sel.map mkTxIn }

/-- The fee `fundTx` computes for a given skeleton state:
`(serializeSize + spendSize * numInputs) * feeRate`. -/
def feeAfter (ser : MessageTx → Int) (feeRate : Int) (tx : MessageTx) : Int :=
  (ser tx + spendSize * tx.txIn.length) * feeRate

/-- The stopping condition of the selection loop, expressed over a prefix
`p` of the remaining UTXO list relative to the loop state (`amtSel`,
`tx`): at least one eligible output occurs in `p`, and the amount
selected after processing `p` covers the target plus the fee at that
point.  `fundTx` checks this exactly after each eligible addition, i.e.
at prefixes ending in an eligible output; over arbitrary prefixes the
shortest satisfying prefix is the same. -/
def winning (ser : MessageTx → Int) (account : String) (amt feeRate : Int)
    (amtSel : Int) (tx : MessageTx) (p : List Unspent) : Prop :=
  p.filter (eligible account) ≠ [] ∧
  amt ≤ amtSel + selAmount (p.filter (eligible account)) -
    feeAfter ser feeRate (txWithInputs tx (p.filter (eligible account)))

/-- The fee formula as the specification words it (step 4–5 of the
algorithm): provisional size `serializeSize(skeleton) + 108 * numInputs`
with the per-input overhead spelt `108 = 1+73+1+33`, times the fee rate.
Stated from the spec to be compared with the source's computation. -/
def requiredFeeSpec (ser : MessageTx → Int) (feeRate : Int)
    (tx : MessageTx) : Int :=
  (ser tx + 108 * tx.txIn.length) * feeRate

/-- The change value a successful run of the loop produces, read off from
the result: amount selected (difference of the input sums, plus the
amount already selected on entry) minus target minus the fee computed at
the stopping point (whose skeleton carries the final inputs but still
the entry outputs). -/
def changeOf (ser : MessageTx → Int) (feeRate amt a : Int)
    (tx r : MessageTx) : Int :=
  a + (sumValueIn r.txIn - sumValueIn tx.txIn) - amt -
    feeAfter ser feeRate { txIn := r.txIn, txOut := tx.txOut }

/-! ## RPC connection manager

The `RPCConnection` type and its `Connect` retry loop are referenced by
the provided source files (`ConsoleNode`, `ConsoleWallet` construct
`RPCConnection{MaxConnRetries: 20, ...}` and call `Connect`,
`IsConnected`, `Disconnect`, `Connection`) but the file defining them is
not among the sources, so the manager is modelled from the
specification. -/

/-- Modelled from the spec: the `RPCConnection` record — retry bound,
and the nullable underlying client handle (present exactly when the
state is `Connected`).  The source file defining `RPCConnection` is not
under `src/`; only its callers are. -/
structure RPCConnection where
  maxConnRetries : Nat
  client : Option Nat

/-- Modelled from the spec: `IsConnected` is a pure state query — true
exactly when a client handle is held. -/
def RPCConnection.isConnected (c : RPCConnection) : Bool :=
  c.client.isSome

/-- Modelled from the spec: the bounded retry loop of `Connect`.  The
factory is indexed by the attempt number; one attempt is made, and on
transient failure up to `fuel` further attempts follow; exhausting the
attempts fails with a connection-establishment error wrapping the last
underlying error. -/
def connectLoop (factory : Nat → Except GoError Nat) :
    Nat → Nat → Except GoError Nat
  | idx, fuel =>
    match factory idx with
    | .ok h => .ok h
    | .error e =>
      match fuel with
      | 0 => .error (.connectFailed e)
      | fuel1 + 1 => connectLoop factory (idx + 1) fuel1

/-- Modelled from the spec: `Connect` attempts to build a client via the
factory, retrying up to `maxConnRetries` times; on success it stores the
client handle (state `Connected`), on failure it returns the
connection-establishment error and the state is unchanged
(`Disconnected`). -/
def RPCConnection.connect (conn : RPCConnection)
    (factory : Nat → Except GoError Nat) : Except GoError RPCConnection :=
  match connectLoop factory 0 conn.maxConnRetries with
  | .ok h => .ok { conn with client := some h }
  | .error e => .error e

/-! ## Concrete example data

A small funding scenario (one 150000-atom spendable UTXO on account
`default`, one 100000-atom desired output, fee rate 10, constant
serialized size 200): the loop selects the single UTXO, computes fee
`(200 + 108) * 10 = 3080` and appends a change output of `46920`. -/

/-- Example UTXO: 150000 atoms, account `default`, spendable, tree 1. -/
def uOne : Unspent := ⟨⟨150000⟩, "default", true, 1⟩

/-- Example seeded skeleton: no inputs, one 100000-atom desired output. -/
def txZero : MessageTx := { txIn := [], txOut := [⟨⟨100000⟩, [9]⟩] }

/-- Example script builder: always succeeds with script `[1, 2]`. -/
def payOne : Address → Except GoError (List Nat) := fun _ => .ok [1, 2]

/-- Example serializer: constant size 200. -/
def serOne : MessageTx → Int := fun _ => 200

/-- Example wallet: one unspent output, fresh addresses succeed. -/
def wOne : WalletModel :=
  { listUnspent := .ok [uOne], getNewAddress := fun _ => .ok 7 }

/-- Example wallet with an empty UTXO set. -/
def wEmpty : WalletModel :=
  { listUnspent := .ok [], getNewAddress := fun _ => .ok 7 }

/-- Example wallet whose address provider fails with a distinctive
collaborator error. -/
def wErr : WalletModel :=
  { listUnspent := .ok [uOne]
    getNewAddress := fun _ => .error (.external 5) }

/-- Example argument record for the scenario above. -/
def argsOne : CreateTransactionArgs :=
  { outputs := [⟨⟨100000⟩, [9]⟩], feeRate := ⟨10⟩, change := true
    txVersion := 1, payToAddrScript := payOne, txSerializeSize := serOne
    account := "default" }

/-- The skeleton the scenario produces: the selected input and the
appended change output of 46920 atoms. -/
def rOne : MessageTx :=
  { txIn := [⟨⟨0, 0, 1⟩, ⟨150000⟩⟩]
    txOut := [⟨⟨100000⟩, [9]⟩, ⟨⟨46920⟩, [1, 2]⟩] }

/-- Example connection with two retries allowed, disconnected. -/
def connTwo : RPCConnection := { maxConnRetries := 2, client := none }

/-- Example factory: attempts 0 and 1 fail, attempt 2 yields client 99. -/
def facTwo : Nat → Except GoError Nat :=
  fun i => if i < 2 then .error (.external i) else .ok 99

/-! ## Unfolding lemmas for the selection loop -/

section FundTxLemmas

variable (wallet : WalletModel) (account : String) (amt feeRate : Int)
variable (pay : Address → Except GoError (List Nat)) (ser : MessageTx → Int)

theorem fundTxFrom_nil (a : Int) (tx : MessageTx) :
    fundTxFrom wallet account amt feeRate pay ser [] a tx =
      .error insufficientFundsErr := rfl

theorem fundTxFrom_cons_skip (u : Unspent) (rest : List Unspent) (a : Int)
    (tx : MessageTx) (h : eligible account u = false) :
    fundTxFrom wallet account amt feeRate pay ser (u :: rest) a tx =
      fundTxFrom wallet account amt feeRate pay ser rest a tx := by
  cases hs : u.spendable with
  | false => simp [fundTxFrom, hs]
  | true =>
    have hne : u.account ≠ account := by
      intro hEq
      rw [eligible, hs, hEq] at h
      simp at h
    simp [fundTxFrom, hs, hne]

theorem fundTxFrom_cons_elig (u : Unspent) (rest : List Unspent) (a : Int)
    (tx : MessageTx) (h : eligible account u = true) :
    fundTxFrom wallet account amt feeRate pay ser (u :: rest) a tx =
      if a + u.amount.atomsValue -
          feeAfter ser feeRate { tx with txIn := tx.txIn ++ [mkTxIn u] } < amt
      then
        fundTxFrom wallet account amt feeRate pay ser rest
          (a + u.amount.atomsValue) { tx with txIn := tx.txIn ++ [mkTxIn u] }
      else
        fundTxFinish wallet pay account
          (a + u.amount.atomsValue - amt -
            feeAfter ser feeRate { tx with txIn := tx.txIn ++ [mkTxIn u] })
          { tx with txIn := tx.txIn ++ [mkTxIn u] } := by
  have h2 := h
  simp only [eligible, Bool.and_eq_true, beq_iff_eq] at h2
  obtain ⟨hs, hacc⟩ := h2
  simp [fundTxFrom, feeAfter, hs, hacc]

theorem fundTxFinish_ok (c : Int) (tx r : MessageTx) (n : Nat)
    (h : fundTxFinish wallet pay account c tx = .ok (r, n)) :
    r.txIn = tx.txIn ∧
    ((0 < c ∧ n = 1 ∧
        ∃ ad s, wallet.getNewAddress account = .ok ad ∧ pay ad = .ok s ∧
          r.txOut = tx.txOut ++ [{ value := { atomsValue := c }
                                   pkScript := s }]) ∨
      (¬ 0 < c ∧ n = 0 ∧ r = tx)) := by
  unfold fundTxFinish at h
  split at h
  case isTrue hc =>
    split at h
    next e heq => exact absurd h (by simp)
    next ad heq =>
      split at h
      next e heq2 => exact absurd h (by simp)
      next s heq2 =>
        simp only [Except.ok.injEq, Prod.mk.injEq] at h
        refine ⟨by rw [← h.1], Or.inl ⟨hc, h.2.symm, ad, s, heq, heq2, ?_⟩⟩
        rw [← h.1]
  case isFalse hc =>
    simp only [Except.ok.injEq, Prod.mk.injEq] at h
    exact ⟨by rw [← h.1], Or.inr ⟨hc, h.2.symm, h.1.symm⟩⟩

theorem fundTxFinish_error (c : Int) (tx : MessageTx) (e : GoError)
    (h : fundTxFinish wallet pay account c tx = .error e) :
    wallet.getNewAddress account = .error e ∨
      ∃ ad, wallet.getNewAddress account = .ok ad ∧ pay ad = .error e := by
  unfold fundTxFinish at h
  split at h
  case isTrue hc =>
    split at h
    next e2 heq =>
      simp only [Except.error.injEq] at h
      exact Or.inl (by rw [← h]; exact heq)
    next ad heq =>
      split at h
      next e2 heq2 =>
        simp only [Except.error.injEq] at h
        exact Or.inr ⟨ad, heq, by rw [← h]; exact heq2⟩
      next s heq2 => exact absurd h (by simp)
  case isFalse hc => exact absurd h (by simp)

theorem fundTxFinish_isOk (c : Int) (tx : MessageTx)
    (hga : ∃ ad, wallet.getNewAddress account = .ok ad)
    (hpay : ∀ ad, ∃ s, pay ad = .ok s) :
    ∃ r n, fundTxFinish wallet pay account c tx = .ok (r, n) := by
  obtain ⟨ad, had⟩ := hga
  obtain ⟨s, hs⟩ := hpay ad
  by_cases hc : c > 0
  · refine ⟨{ tx with txOut := tx.txOut ++ [{ value := { atomsValue := c }
                                              pkScript := s }] }, 1, ?_⟩
    unfold fundTxFinish
    rw [if_pos hc, had]
    simp [hs]
  · exact ⟨tx, 0, by unfold fundTxFinish; rw [if_neg hc]⟩

theorem selAmount_cons (u : Unspent) (l : List Unspent) :
    selAmount (u :: l) = u.amount.atomsValue + selAmount l := by
  simp [selAmount]

theorem sumValueIn_append_one (l : List TxIn) (i : TxIn) :
    sumValueIn (l ++ [i]) = sumValueIn l + i.valueIn.atomsValue := by
  simp [sumValueIn]

theorem txWithInputs_nil (tx : MessageTx) : txWithInputs tx [] = tx := by
  simp [txWithInputs]

theorem txWithInputs_cons (tx : MessageTx) (u : Unspent)
    (sel : List Unspent) :
    txWithInputs tx (u :: sel) =
      txWithInputs { tx with txIn := tx.txIn ++ [mkTxIn u] } sel := by
  simp [txWithInputs]

/-- The Go loop appends the input for every eligible UTXO it selects, so
every input of a successful skeleton is either inherited from the given
skeleton or built by `mkTxIn` from an eligible listed UTXO. -/
theorem fundTxFrom_ok_mem (wallet : WalletModel) (account : String)
    (amt feeRate : Int) (pay : Address → Except GoError (List Nat))
    (ser : MessageTx → Int) :
    ∀ (rest : List Unspent) (a : Int) (tx r : MessageTx) (n : Nat),
      fundTxFrom wallet account amt feeRate pay ser rest a tx = .ok (r, n) →
      ∀ i ∈ r.txIn,
        i ∈ tx.txIn ∨ ∃ u, u ∈ rest ∧ eligible account u = true ∧
          i = mkTxIn u := by
  intro rest
  induction rest with
  | nil =>
    intro a tx r n h
    rw [fundTxFrom_nil] at h
    exact Except.noConfusion h
  | cons u rest ih =>
    intro a tx r n h i hi
    by_cases he : eligible account u = true
    · rw [fundTxFrom_cons_elig wallet account amt feeRate pay ser u rest a
        tx he] at h
      by_cases hlt : a + u.amount.atomsValue - feeAfter ser feeRate
          { tx with txIn := tx.txIn ++ [mkTxIn u] } < amt
      · rw [if_pos hlt] at h
        rcases ih _ _ _ _ h i hi with hmem | ⟨v, hv, hev, hiv⟩
        · simp only [List.mem_append, List.mem_singleton] at hmem
          rcases hmem with hmem | hmem
          · exact Or.inl hmem
          · exact Or.inr ⟨u, List.mem_cons_self u rest, he, hmem⟩
        · exact Or.inr ⟨v, List.mem_cons_of_mem u hv, hev, hiv⟩
      · rw [if_neg hlt] at h
        have hfin := fundTxFinish_ok wallet account pay _ _ _ _ h
        rw [hfin.1] at hi
        simp only [List.mem_append, List.mem_singleton] at hi
        rcases hi with hmem | hmem
        · exact Or.inl hmem
        · exact Or.inr ⟨u, List.mem_cons_self u rest, he, hmem⟩
    · rw [fundTxFrom_cons_skip wallet account amt feeRate pay ser u rest a
        tx (by simpa using he)] at h
      rcases ih _ _ _ _ h i hi with hmem | ⟨v, hv, hev, hiv⟩
      · exact Or.inl hmem
      · exact Or.inr ⟨v, List.mem_cons_of_mem u hv, hev, hiv⟩

theorem changeOf_step (ser : MessageTx → Int) (feeRate amt : Int)
    (u : Unspent) (a : Int) (tx r : MessageTx) :
    changeOf ser feeRate amt (a + u.amount.atomsValue)
      { tx with txIn := tx.txIn ++ [mkTxIn u] } r =
    changeOf ser feeRate amt a tx r := by
  simp only [changeOf, sumValueIn_append_one, mkTxIn, Amount.copy]
  ring

/-- Accounting of a successful run of the loop: the change value is
nonnegative; when positive, exactly one address was requested and the
change output with exactly that value was appended; when zero, no
address was requested and the outputs are unchanged. -/
theorem fundTxFrom_ok_acct (wallet : WalletModel) (account : String)
    (amt feeRate : Int) (pay : Address → Except GoError (List Nat))
    (ser : MessageTx → Int) :
    ∀ (rest : List Unspent) (a : Int) (tx r : MessageTx) (n : Nat),
      fundTxFrom wallet account amt feeRate pay ser rest a tx = .ok (r, n) →
      0 ≤ changeOf ser feeRate amt a tx r ∧
      ((0 < changeOf ser feeRate amt a tx r ∧ n = 1 ∧
          ∃ ad s, wallet.getNewAddress account = .ok ad ∧ pay ad = .ok s ∧
            r.txOut = tx.txOut ++
              [{ value := { atomsValue := changeOf ser feeRate amt a tx r }
                 pkScript := s }]) ∨
        (changeOf ser feeRate amt a tx r = 0 ∧ n = 0 ∧
          r.txOut = tx.txOut)) := by
  intro rest
  induction rest with
  | nil =>
    intro a tx r n h
    rw [fundTxFrom_nil] at h
    exact Except.noConfusion h
  | cons u rest ih =>
    intro a tx r n h
    by_cases he : eligible account u = true
    · rw [fundTxFrom_cons_elig wallet account amt feeRate pay ser u rest a
        tx he] at h
      by_cases hlt : a + u.amount.atomsValue - feeAfter ser feeRate
          { tx with txIn := tx.txIn ++ [mkTxIn u] } < amt
      · rw [if_pos hlt] at h
        have := ih _ _ _ _ h
        rwa [changeOf_step] at this
      · rw [if_neg hlt] at h
        have hfin := fundTxFinish_ok wallet account pay _ _ _ _ h
        have htxout :
            ({ tx with txIn := tx.txIn ++ [mkTxIn u] } : MessageTx).txOut
              = tx.txOut := rfl
        have hc : changeOf ser feeRate amt a tx r =
            a + u.amount.atomsValue - amt - feeAfter ser feeRate
              { tx with txIn := tx.txIn ++ [mkTxIn u] } := by
          simp only [changeOf, hfin.1, sumValueIn_append_one, mkTxIn,
            Amount.copy]
          ring
        rw [hc]
        constructor
        · linarith [not_lt.mp hlt]
        · rcases hfin.2 with ⟨hpos, hn, ad, s, hga, hp, hout⟩ |
            ⟨hpos, hn, hr⟩
          · exact Or.inl ⟨hpos, hn, ad, s, hga, hp, hout⟩
          · refine Or.inr ⟨by linarith [not_lt.mp hlt, not_lt.mp hpos], hn, ?_⟩
            rw [hr]
    · rw [fundTxFrom_cons_skip wallet account amt feeRate pay ser u rest a
        tx (by simpa using he)] at h
      exact ih _ _ _ _ h

/-- If the remaining list still holds at least one eligible output and
selecting all of them would cover the target plus the fee at that final
state, the loop cannot exhaust the list: it succeeds (it stops at the
latest at the final eligible output), provided the collaborators do not
fail. -/
theorem fundTxFrom_success (wallet : WalletModel) (account : String)
    (amt feeRate : Int) (pay : Address → Except GoError (List Nat))
    (ser : MessageTx → Int) :
    ∀ (rest : List Unspent) (a : Int) (tx : MessageTx),
      rest.filter (eligible account) ≠ [] →
      amt ≤ a + selAmount (rest.filter (eligible account)) -
        feeAfter ser feeRate
          (txWithInputs tx (rest.filter (eligible account))) →
      (∃ ad, wallet.getNewAddress account = .ok ad) →
      (∀ ad, ∃ s, pay ad = .ok s) →
      ∃ r n, fundTxFrom wallet account amt feeRate pay ser rest a tx =
        .ok (r, n) := by
  intro rest
  induction rest with
  | nil => intro a tx hne _ _ _; exact absurd rfl hne
  | cons u rest ih =>
    intro a tx hne hcover hga hpay
    by_cases he : eligible account u = true
    · have hfu : (u :: rest).filter (eligible account) =
          u :: rest.filter (eligible account) := by
        simp [List.filter_cons, he]
      rw [fundTxFrom_cons_elig wallet account amt feeRate pay ser u rest a
        tx he]
      by_cases hlt : a + u.amount.atomsValue - feeAfter ser feeRate
          { tx with txIn := tx.txIn ++ [mkTxIn u] } < amt
      · rw [if_pos hlt]
        by_cases hrest : rest.filter (eligible account) = []
        · exfalso
          rw [hfu, hrest, selAmount_cons, txWithInputs_cons,
            txWithInputs_nil] at hcover
          simp only [selAmount, List.map_nil, List.sum_nil] at hcover
          linarith
        · apply ih _ _ hrest ?_ hga hpay
          rw [hfu, selAmount_cons, txWithInputs_cons] at hcover
          linarith
      · rw [if_neg hlt]
        exact fundTxFinish_isOk wallet account pay _ _ hga hpay
    · have he2 : eligible account u = false := by simpa using he
      have hfu : (u :: rest).filter (eligible account) =
          rest.filter (eligible account) := by
        simp [List.filter_cons, he2]
      rw [fundTxFrom_cons_skip wallet account amt feeRate pay ser u rest a
        tx he2]
      rw [hfu] at hne hcover
      exact ih _ _ hne hcover hga hpay

/-- If no prefix of the remaining list satisfies the stopping condition
(relative to the entry state), the loop exhausts the list and fails with
the insufficient-funds error. -/
theorem fundTxFrom_fail (wallet : WalletModel) (account : String)
    (amt feeRate : Int) (pay : Address → Except GoError (List Nat))
    (ser : MessageTx → Int) :
    ∀ (rest : List Unspent) (a : Int) (tx : MessageTx),
      (∀ p s, rest = p ++ s →
        ¬ winning ser account amt feeRate a tx p) →
      fundTxFrom wallet account amt feeRate pay ser rest a tx =
        .error insufficientFundsErr := by
  intro rest
  induction rest with
  | nil => intro a tx _; rfl
  | cons u rest ih =>
    intro a tx hno
    by_cases he : eligible account u = true
    · have hfu : ∀ l : List Unspent, (u :: l).filter (eligible account) =
          u :: l.filter (eligible account) := by
        intro l; simp [List.filter_cons, he]
      rw [fundTxFrom_cons_elig wallet account amt feeRate pay ser u rest a
        tx he]
      have hlt : a + u.amount.atomsValue - feeAfter ser feeRate
          { tx with txIn := tx.txIn ++ [mkTxIn u] } < amt := by
        by_contra hge
        apply hno [u] rest rfl
        refine ⟨by simp [List.filter_cons, he], ?_⟩
        rw [hfu, List.filter_nil, selAmount_cons, txWithInputs_cons,
          txWithInputs_nil]
        simp only [selAmount, List.map_nil, List.sum_nil]
        linarith
      rw [if_pos hlt]
      apply ih
      intro q s hqs hw
      apply hno (u :: q) s (by rw [hqs]; rfl)
      obtain ⟨hne, harith⟩ := hw
      refine ⟨by rw [hfu]; simp, ?_⟩
      rw [hfu, selAmount_cons, txWithInputs_cons]
      linarith
    · have he2 : eligible account u = false := by simpa using he
      have hfu : ∀ l : List Unspent, (u :: l).filter (eligible account) =
          l.filter (eligible account) := by
        intro l; simp [List.filter_cons, he2]
      rw [fundTxFrom_cons_skip wallet account amt feeRate pay ser u rest a
        tx he2]
      apply ih
      intro q s hqs hw
      apply hno (u :: q) s (by rw [hqs]; rfl)
      obtain ⟨hne, harith⟩ := hw
      exact ⟨by rw [hfu]; exact hne, by rw [hfu]; exact harith⟩

/-- First-fit characterisation of a successful run: the list splits as
`p ++ s` where `p` is the shortest prefix satisfying the stopping
condition, and the inputs appended are exactly the eligible outputs of
`p`, in list order. -/
theorem fundTxFrom_ok_firstfit (wallet : WalletModel) (account : String)
    (amt feeRate : Int) (pay : Address → Except GoError (List Nat))
    (ser : MessageTx → Int) :
    ∀ (rest : List Unspent) (a : Int) (tx r : MessageTx) (n : Nat),
      fundTxFrom wallet account amt feeRate pay ser rest a tx = .ok (r, n) →
      ∃ p s, rest = p ++ s ∧
        winning ser account amt feeRate a tx p ∧
        (∀ q qs, p = q ++ qs → q ≠ p →
          ¬ winning ser account amt feeRate a tx q) ∧
        r.txIn = tx.txIn ++ (p.filter (eligible account)).map mkTxIn := by
  intro rest
  induction rest with
  | nil =>
    intro a tx r n h
    rw [fundTxFrom_nil] at h
    exact Except.noConfusion h
  | cons u rest ih =>
    intro a tx r n h
    by_cases he : eligible account u = true
    · have hfu : ∀ l : List Unspent, (u :: l).filter (eligible account) =
          u :: l.filter (eligible account) := by
        intro l; simp [List.filter_cons, he]
      rw [fundTxFrom_cons_elig wallet account amt feeRate pay ser u rest a
        tx he] at h
      by_cases hlt : a + u.amount.atomsValue - feeAfter ser feeRate
          { tx with txIn := tx.txIn ++ [mkTxIn u] } < amt
      · rw [if_pos hlt] at h
        obtain ⟨p1, s, hps, hwin, hmin, htxin⟩ := ih _ _ _ _ h
        refine ⟨u :: p1, s, by rw [hps]; rfl, ?_, ?_, ?_⟩
        · obtain ⟨hne, harith⟩ := hwin
          refine ⟨by rw [hfu]; simp, ?_⟩
          rw [hfu, selAmount_cons, txWithInputs_cons]
          linarith
        · intro q qs hq hqe hw
          cases q with
          | nil => exact hw.1 rfl
          | cons v q1 =>
            rw [List.cons_append, List.cons.injEq] at hq
            obtain ⟨hv, hp1⟩ := hq
            subst hv
            have hqe1 : q1 ≠ p1 := fun hEq => hqe (by rw [hEq])
            obtain ⟨hne, harith⟩ := hw
            by_cases hq1f : q1.filter (eligible account) = []
            · rw [hfu, hq1f, selAmount_cons, txWithInputs_cons,
                txWithInputs_nil] at harith
              simp only [selAmount, List.map_nil, List.sum_nil] at harith
              linarith
            · apply hmin q1 qs hp1 hqe1
              refine ⟨hq1f, ?_⟩
              rw [hfu, selAmount_cons, txWithInputs_cons] at harith
              linarith
        · rw [htxin, hfu]
          simp
      · rw [if_neg hlt] at h
        have hfin := fundTxFinish_ok wallet account pay _ _ _ _ h
        refine ⟨[u], rest, rfl, ?_, ?_, ?_⟩
        · refine ⟨by rw [hfu]; simp, ?_⟩
          rw [hfu, List.filter_nil, selAmount_cons, txWithInputs_cons,
            txWithInputs_nil]
          simp only [selAmount, List.map_nil, List.sum_nil]
          linarith
        · intro q qs hq hqe hw
          cases q with
          | nil => exact hw.1 rfl
          | cons v q1 =>
            rw [List.cons_append, List.cons.injEq] at hq
            obtain ⟨hv, hq1⟩ := hq
            have hq10 : q1 = [] := (List.append_eq_nil.mp hq1.symm).1
            exact hqe (by rw [← hv, hq10])
        · rw [hfin.1, hfu]
          simp
    · have he2 : eligible account u = false := by simpa using he
      have hfu : ∀ l : List Unspent, (u :: l).filter (eligible account) =
          l.filter (eligible account) := by
        intro l; simp [List.filter_cons, he2]
      rw [fundTxFrom_cons_skip wallet account amt feeRate pay ser u rest a
        tx he2] at h
      obtain ⟨p1, s, hps, hwin, hmin, htxin⟩ := ih _ _ _ _ h
      refine ⟨u :: p1, s, by rw [hps]; rfl, ?_, ?_, ?_⟩
      · exact ⟨by rw [hfu]; exact hwin.1, by rw [hfu]; exact hwin.2⟩
      · intro q qs hq hqe hw
        cases q with
        | nil => exact hw.1 rfl
        | cons v q1 =>
          rw [List.cons_append, List.cons.injEq] at hq
          obtain ⟨hv, hp1⟩ := hq
          subst hv
          have hqe1 : q1 ≠ p1 := fun hEq => hqe (by rw [hEq])
          apply hmin q1 qs hp1 hqe1
          exact ⟨by rw [← hfu]; exact hw.1, by rw [← hfu]; exact hw.2⟩
      · rw [htxin, hfu]

/-- Every error produced by the loop is either its own insufficient-funds
error or the verbatim error value of one of the two collaborators. -/
theorem fundTxFrom_error_char (wallet : WalletModel) (account : String)
    (amt feeRate : Int) (pay : Address → Except GoError (List Nat))
    (ser : MessageTx → Int) :
    ∀ (rest : List Unspent) (a : Int) (tx : MessageTx) (e : GoError),
      fundTxFrom wallet account amt feeRate pay ser rest a tx = .error e →
      e = insufficientFundsErr ∨
        wallet.getNewAddress account = .error e ∨
        ∃ ad, wallet.getNewAddress account = .ok ad ∧
          pay ad = .error e := by
  intro rest
  induction rest with
  | nil =>
    intro a tx e h
    rw [fundTxFrom_nil] at h
    injection h with h2
    exact Or.inl h2.symm
  | cons u rest ih =>
    intro a tx e h
    by_cases he : eligible account u = true
    · rw [fundTxFrom_cons_elig wallet account amt feeRate pay ser u rest a
        tx he] at h
      by_cases hlt : a + u.amount.atomsValue - feeAfter ser feeRate
          { tx with txIn := tx.txIn ++ [mkTxIn u] } < amt
      · rw [if_pos hlt] at h
        exact ih _ _ _ h
      · rw [if_neg hlt] at h
        exact Or.inr (fundTxFinish_error wallet account pay _ _ _ h)
    · rw [fundTxFrom_cons_skip wallet account amt feeRate pay ser u rest a
        tx (by simpa using he)] at h
      exact ih _ _ _ h

end FundTxLemmas

theorem sumValueOut_append_one (l : List TxOut) (o : TxOut) :
    sumValueOut (l ++ [o]) = sumValueOut l + o.value.atomsValue := by
  simp [sumValueOut]

/-- `CreateTransaction` under a successful `ListUnspent`, with the funder
call exposed. -/
theorem CreateTransaction_eq (wallet : WalletModel)
    (args : CreateTransactionArgs) (unspent : List Unspent)
    (hU : wallet.listUnspent = .ok unspent) :
    CreateTransaction wallet args =
      match fundTx wallet args.account unspent
          { txIn := [], txOut := args.outputs }
          { atomsValue := sumValueOut args.outputs } args.feeRate
          args.payToAddrScript args.txSerializeSize with
      | .error e => .error e
      | .ok (tx1, _) => .ok tx1 := by
  unfold CreateTransaction
  rw [hU]

/-- If the factory fails at every attempt up to the given fuel, the retry
loop fails with a connection-establishment error wrapping the error of
the last attempt. -/
theorem connectLoop_all_fail (factory : Nat → Except GoError Nat) :
    ∀ (fuel idx : Nat),
      (∀ i, i ≤ fuel → ∃ e, factory (idx + i) = .error e) →
      ∃ e, connectLoop factory idx fuel = .error (.connectFailed e) ∧
        factory (idx + fuel) = .error e := by
  intro fuel
  induction fuel with
  | zero =>
    intro idx h
    obtain ⟨e, he⟩ := h 0 (Nat.le_refl 0)
    rw [Nat.add_zero] at he
    refine ⟨e, ?_, by rw [Nat.add_zero]; exact he⟩
    unfold connectLoop
    rw [he]
  | succ fuel ih =>
    intro idx h
    obtain ⟨e0, he0⟩ := h 0 (Nat.zero_le _)
    rw [Nat.add_zero] at he0
    have hstep : ∀ i, i ≤ fuel → ∃ e, factory (idx + 1 + i) = .error e := by
      intro i hi
      obtain ⟨e1, he1⟩ := h (i + 1) (by omega)
      refine ⟨e1, ?_⟩
      have harg : idx + 1 + i = idx + (i + 1) := by omega
      rw [harg]
      exact he1
    obtain ⟨e, he, hlast⟩ := ih (idx + 1) hstep
    refine ⟨e, ?_, ?_⟩
    · unfold connectLoop
      rw [he0]
      exact he
    · have harg : idx + (fuel + 1) = idx + 1 + fuel := by omega
      rw [harg]
      exact hlast

/-- If the factory fails on the first `k` attempts and succeeds on attempt
`k` (0-based), and at least `k` retries remain, the loop returns that
client. -/
theorem connectLoop_succeeds (factory : Nat → Except GoError Nat) :
    ∀ (k fuel idx : Nat), k ≤ fuel →
      (∀ i, i < k → ∃ e, factory (idx + i) = .error e) →
      ∀ h : Nat, factory (idx + k) = .ok h →
      connectLoop factory idx fuel = .ok h := by
  intro k
  induction k with
  | zero =>
    intro fuel idx _ _ h hok
    rw [Nat.add_zero] at hok
    unfold connectLoop
    rw [hok]
  | succ k ih =>
    intro fuel idx hk hfail h hok
    obtain ⟨e0, he0⟩ := hfail 0 (Nat.succ_pos k)
    rw [Nat.add_zero] at he0
    unfold connectLoop
    rw [he0]
    cases fuel with
    | zero => omega
    | succ fuel1 =>
      show connectLoop factory (idx + 1) fuel1 = .ok h
      apply ih fuel1 (idx + 1) (by omega) ?_ h ?_
      · intro i hi
        obtain ⟨e1, he1⟩ := hfail (i + 1) (by omega)
        refine ⟨e1, ?_⟩
        have harg : idx + 1 + i = idx + (i + 1) := by omega
        rw [harg]
        exact he1
      · have harg : idx + 1 + k = idx + (k + 1) := by omega
        rw [harg]
        exact hok

/-! ## Claim theorems -/

/-- C1: for every account, fee rate, desired-output list and UTXO list in
which the spendable, account-matching outputs carry total value at least
target plus the worst-case fee at the given rate (the fee at the state
where every eligible output has been selected), `CreateTransaction`
(via `fundTx`) succeeds — the collaborators behaving — and the returned
skeleton satisfies `Σ inputs.value ≥ Σ outputs.value + computed fee`. -/
theorem C1_fund_succeeds_and_covers (wallet : WalletModel)
    (args : CreateTransactionArgs) (unspent : List Unspent)
    (hacct : args.account ≠ "")
    (hU : wallet.listUnspent = .ok unspent)
    (hamt : 0 < sumValueOut args.outputs)
    (hfr : 0 ≤ args.feeRate.atomsValue)
    (hser : ∀ t, 0 ≤ args.txSerializeSize t)
    (hga : ∃ ad, wallet.getNewAddress args.account = .ok ad)
    (hpay : ∀ ad, ∃ s, args.payToAddrScript ad = .ok s)
    (hfunds : sumValueOut args.outputs +
        feeAfter args.txSerializeSize args.feeRate.atomsValue
          (txWithInputs { txIn := [], txOut := args.outputs }
            (unspent.filter (eligible args.account))) ≤
      selAmount (unspent.filter (eligible args.account))) :
    ∃ tx, CreateTransaction wallet args = .ok tx ∧
      sumValueOut tx.txOut +
        feeAfter args.txSerializeSize args.feeRate.atomsValue
          { txIn := tx.txIn, txOut := args.outputs } ≤
      sumValueIn tx.txIn := by
  have hne : unspent.filter (eligible args.account) ≠ [] := by
    intro h0
    rw [h0, txWithInputs_nil] at hfunds
    simp only [selAmount, List.map_nil, List.sum_nil] at hfunds
    have hfee : 0 ≤ feeAfter args.txSerializeSize args.feeRate.atomsValue
        { txIn := [], txOut := args.outputs } := by
      unfold feeAfter
      apply mul_nonneg ?_ hfr
      have h1 := hser { txIn := [], txOut := args.outputs }
      simpa using h1
    linarith
  obtain ⟨r, n, hok⟩ := fundTxFrom_success wallet args.account
    (sumValueOut args.outputs) args.feeRate.atomsValue
    args.payToAddrScript args.txSerializeSize unspent 0
    { txIn := [], txOut := args.outputs } hne (by linarith) hga hpay
  have hokF : fundTx wallet args.account unspent
      { txIn := [], txOut := args.outputs }
      { atomsValue := sumValueOut args.outputs } args.feeRate
      args.payToAddrScript args.txSerializeSize = .ok (r, n) := hok
  have hacc := fundTxFrom_ok_acct wallet args.account
    (sumValueOut args.outputs) args.feeRate.atomsValue
    args.payToAddrScript args.txSerializeSize unspent 0
    { txIn := [], txOut := args.outputs } r n hok
  have hch : changeOf args.txSerializeSize args.feeRate.atomsValue
      (sumValueOut args.outputs) 0 { txIn := [], txOut := args.outputs } r =
      sumValueIn r.txIn - sumValueOut args.outputs -
        feeAfter args.txSerializeSize args.feeRate.atomsValue
          { txIn := r.txIn, txOut := args.outputs } := by
    simp only [changeOf, sumValueIn, List.map_nil, List.sum_nil]
    ring
  refine ⟨r, ?_, ?_⟩
  · rw [CreateTransaction_eq wallet args unspent hU, hokF]
  · rcases hacc.2 with ⟨hpos, hn, ad, s, hga2, hp2, hout⟩ |
      ⟨hzero, hn, hout⟩
    · have hout2 : r.txOut = args.outputs ++
          [⟨⟨changeOf args.txSerializeSize args.feeRate.atomsValue
            (sumValueOut args.outputs) 0 ⟨[], args.outputs⟩ r⟩, s⟩] := hout
      rw [hout2, sumValueOut_append_one]
      have hproj : ((⟨⟨changeOf args.txSerializeSize
            args.feeRate.atomsValue (sumValueOut args.outputs) 0
            ⟨[], args.outputs⟩ r⟩, s⟩ : TxOut)).value.atomsValue =
          changeOf args.txSerializeSize args.feeRate.atomsValue
            (sumValueOut args.outputs) 0 ⟨[], args.outputs⟩ r := rfl
      rw [hproj]
      linarith [hch]
    · have hout2 : r.txOut = args.outputs := hout
      rw [hout2]
      linarith [hch, hzero]

/-- C2: when no prefix of the UTXO list lets the selected amount minus
the required fee reach the target, the loop exhausts the list: `fundTx`
fails with the distinct insufficient-funds error and `CreateTransaction`
returns no skeleton. -/
theorem C2_insufficient_funds_error (wallet : WalletModel)
    (args : CreateTransactionArgs) (unspent : List Unspent)
    (hU : wallet.listUnspent = .ok unspent)
    (hno : ∀ p s, unspent = p ++ s →
      ¬ winning args.txSerializeSize args.account (sumValueOut args.outputs)
        args.feeRate.atomsValue 0 { txIn := [], txOut := args.outputs } p) :
    fundTx wallet args.account unspent { txIn := [], txOut := args.outputs }
        { atomsValue := sumValueOut args.outputs } args.feeRate
        args.payToAddrScript args.txSerializeSize =
      .error insufficientFundsErr ∧
    CreateTransaction wallet args = .error insufficientFundsErr := by
  have hf := fundTxFrom_fail wallet args.account (sumValueOut args.outputs)
    args.feeRate.atomsValue args.payToAddrScript args.txSerializeSize
    unspent 0 { txIn := [], txOut := args.outputs } hno
  have hfF : fundTx wallet args.account unspent
      { txIn := [], txOut := args.outputs }
      { atomsValue := sumValueOut args.outputs } args.feeRate
      args.payToAddrScript args.txSerializeSize =
      .error insufficientFundsErr := hf
  exact ⟨hfF, by rw [CreateTransaction_eq wallet args unspent hU, hfF]⟩

/-- C3: every input of a skeleton returned by `fundTx` that was not
already present comes from a listed UTXO that is spendable and owned by
the requested account; no non-spendable or account-mismatched UTXO is
ever selected. -/
theorem C3_inputs_spendable_and_matching (wallet : WalletModel)
    (account : String) (unspent : List Unspent) (tx : MessageTx)
    (amt feeRate : Amount) (pay : Address → Except GoError (List Nat))
    (ser : MessageTx → Int) (r : MessageTx) (n : Nat)
    (h : fundTx wallet account unspent tx amt feeRate pay ser = .ok (r, n)) :
    ∀ i ∈ r.txIn, i ∈ tx.txIn ∨
      ∃ u, u ∈ unspent ∧ u.spendable = true ∧ u.account = account ∧
        i = mkTxIn u := by
  intro i hi
  rcases fundTxFrom_ok_mem wallet account amt.atomsValue feeRate.atomsValue
      pay ser unspent 0 tx r n h i hi with hm | ⟨u, hu, he, hiu⟩
  · exact Or.inl hm
  · simp only [eligible, Bool.and_eq_true, beq_iff_eq] at he
    exact Or.inr ⟨u, hu, he.1, he.2, hiu⟩

/-- C4: whenever `fundTx` succeeds, the change value
`selected - target - requiredFee` is nonnegative; a change output is
appended iff it is positive, with exactly that value, and exactly one
fresh address is requested in that case — none when the change is zero. -/
theorem C4_change_accounting (wallet : WalletModel) (account : String)
    (unspent : List Unspent) (tx : MessageTx) (amt feeRate : Amount)
    (pay : Address → Except GoError (List Nat)) (ser : MessageTx → Int)
    (r : MessageTx) (n : Nat)
    (h : fundTx wallet account unspent tx amt feeRate pay ser = .ok (r, n)) :
    0 ≤ changeOf ser feeRate.atomsValue amt.atomsValue 0 tx r ∧
    (0 < changeOf ser feeRate.atomsValue amt.atomsValue 0 tx r →
      n = 1 ∧ ∃ ad s, wallet.getNewAddress account = .ok ad ∧
        pay ad = .ok s ∧
        r.txOut = tx.txOut ++
          [⟨⟨changeOf ser feeRate.atomsValue amt.atomsValue 0 tx r⟩, s⟩]) ∧
    (changeOf ser feeRate.atomsValue amt.atomsValue 0 tx r = 0 →
      n = 0 ∧ r.txOut = tx.txOut) := by
  have hacc := fundTxFrom_ok_acct wallet account amt.atomsValue
    feeRate.atomsValue pay ser unspent 0 tx r n h
  refine ⟨hacc.1, ?_, ?_⟩
  · intro hpos
    rcases hacc.2 with ⟨_, hn, ad, s, hga, hp, hout⟩ | ⟨hzero, _, _⟩
    · exact ⟨hn, ad, s, hga, hp, hout⟩
    · exact absurd hzero (by linarith)
  · intro hzero
    rcases hacc.2 with ⟨hpos, _, _⟩ | ⟨_, hn, hout⟩
    · exact absurd hzero (by linarith)
    · exact ⟨hn, hout⟩

/-- C5: coin selection is first-fit in the given order: on success the
UTXO list splits as `p ++ s` with `p` the shortest prefix whose eligible
outputs satisfy `selected - requiredFee ≥ target`, and the appended
inputs are exactly the eligible outputs of `p`, in list order. -/
theorem C5_first_fit (wallet : WalletModel) (account : String)
    (unspent : List Unspent) (tx : MessageTx) (amt feeRate : Amount)
    (pay : Address → Except GoError (List Nat)) (ser : MessageTx → Int)
    (r : MessageTx) (n : Nat)
    (h : fundTx wallet account unspent tx amt feeRate pay ser = .ok (r, n)) :
    ∃ p s, unspent = p ++ s ∧
      winning ser account amt.atomsValue feeRate.atomsValue 0 tx p ∧
      (∀ q qs, p = q ++ qs → q ≠ p →
        ¬ winning ser account amt.atomsValue feeRate.atomsValue 0 tx q) ∧
      r.txIn = tx.txIn ++ (p.filter (eligible account)).map mkTxIn :=
  fundTxFrom_ok_firstfit wallet account amt.atomsValue feeRate.atomsValue
    pay ser unspent 0 tx r n h

/-- C6: after each input addition the loop computes the provisional size
as `TxSerializeSize(tx) + 108 * numInputs` with the per-input overhead
`108 = 1+73+1+33`, and the required fee as that size times the fee rate
(`requiredFeeSpec` is the spec-side formula; the step equation shows the
loop branches on exactly that fee). -/
theorem C6_fee_formula (wallet : WalletModel) (account : String)
    (amt feeRate : Int) (pay : Address → Except GoError (List Nat))
    (ser : MessageTx → Int) (u : Unspent) (rest : List Unspent)
    (a : Int) (tx : MessageTx) :
    spendSize = 1 + 73 + 1 + 33 ∧ spendSize = 108 ∧
    (∀ t, feeAfter ser feeRate t = requiredFeeSpec ser feeRate t) ∧
    fundTxFrom wallet account amt feeRate pay ser (u :: rest) a tx =
      (if !u.spendable then
        fundTxFrom wallet account amt feeRate pay ser rest a tx
      else if u.account != account then
        fundTxFrom wallet account amt feeRate pay ser rest a tx
      else if a + u.amount.atomsValue - requiredFeeSpec ser feeRate
          { tx with txIn := tx.txIn ++ [mkTxIn u] } < amt then
        fundTxFrom wallet account amt feeRate pay ser rest
          (a + u.amount.atomsValue) { tx with txIn := tx.txIn ++ [mkTxIn u] }
      else
        fundTxFinish wallet pay account
          (a + u.amount.atomsValue - amt - requiredFeeSpec ser feeRate
            { tx with txIn := tx.txIn ++ [mkTxIn u] })
          { tx with txIn := tx.txIn ++ [mkTxIn u] }) := by
  have h108 : spendSize = (108 : Int) := by norm_num [spendSize]
  refine ⟨rfl, h108, ?_, ?_⟩
  · intro t
    rw [feeAfter, requiredFeeSpec, h108]
  · simp only [fundTxFrom, requiredFeeSpec, h108]

/-- C7: every error `fundTx` returns is either its own distinct
insufficient-funds error or the verbatim, unwrapped error value of the
change-address provider or of the script builder; `CreateTransaction`
then returns no skeleton, propagating that same error. -/
theorem C7_collaborator_error_passthrough (wallet : WalletModel)
    (args : CreateTransactionArgs) (unspent : List Unspent) (e : GoError)
    (hU : wallet.listUnspent = .ok unspent)
    (hE : fundTx wallet args.account unspent
        { txIn := [], txOut := args.outputs }
        { atomsValue := sumValueOut args.outputs } args.feeRate
        args.payToAddrScript args.txSerializeSize = .error e) :
    (e = insufficientFundsErr ∨
      wallet.getNewAddress args.account = .error e ∨
      ∃ ad, wallet.getNewAddress args.account = .ok ad ∧
        args.payToAddrScript ad = .error e) ∧
    CreateTransaction wallet args = .error e := by
  refine ⟨?_, ?_⟩
  · exact fundTxFrom_error_char wallet args.account
      (sumValueOut args.outputs) args.feeRate.atomsValue
      args.payToAddrScript args.txSerializeSize unspent 0
      { txIn := [], txOut := args.outputs } e hE
  · rw [CreateTransaction_eq wallet args unspent hU, hE]

/-- C8: every input appended by `fundTx` copies from its UTXO only the
tree tag into the previous outpoint — the transaction hash and index
stay at their zero values — while `ValueIn` is a copy of the UTXO's
amount. -/
theorem C8_outpoint_tree_only (wallet : WalletModel) (account : String)
    (unspent : List Unspent) (tx : MessageTx) (amt feeRate : Amount)
    (pay : Address → Except GoError (List Nat)) (ser : MessageTx → Int)
    (r : MessageTx) (n : Nat)
    (h : fundTx wallet account unspent tx amt feeRate pay ser = .ok (r, n)) :
    ∀ i ∈ r.txIn, i ∉ tx.txIn →
      ∃ u, u ∈ unspent ∧ i.previousOutPoint.tree = u.tree ∧
        i.previousOutPoint.hash = 0 ∧ i.previousOutPoint.index = 0 ∧
        i.valueIn = u.amount.copy ∧ i.valueIn.atomsValue =
          u.amount.atomsValue := by
  intro i hi hni
  rcases fundTxFrom_ok_mem wallet account amt.atomsValue feeRate.atomsValue
      pay ser unspent 0 tx r n h i hi with hm | ⟨u, hu, _, hiu⟩
  · exact absurd hm hni
  · subst hiu
    exact ⟨u, hu, rfl, rfl, rfl, rfl, rfl⟩

/-- C9: with a client factory failing on the first `N` attempts and
succeeding on the next, `Connect` on a disconnected `RPCConnection` ends
`Connected` when `maxConnRetries ≥ N`; when `maxConnRetries < N` it
fails with a connection-establishment error wrapping the last underlying
error and the state remains disconnected. -/
theorem C9_connect_bounded_retry (conn : RPCConnection)
    (factory : Nat → Except GoError Nat) (N : Nat) (h : Nat)
    (hstart : conn.client = none)
    (hfail : ∀ i, i < N → ∃ e, factory i = .error e)
    (hok : factory N = .ok h) :
    (N ≤ conn.maxConnRetries →
      ∃ conn2, conn.connect factory = .ok conn2 ∧
        conn2.isConnected = true) ∧
    (conn.maxConnRetries < N →
      (∃ e, conn.connect factory = .error (.connectFailed e) ∧
        factory conn.maxConnRetries = .error e) ∧
      conn.isConnected = false) := by
  constructor
  · intro hN
    have hloop := connectLoop_succeeds factory N conn.maxConnRetries 0 hN
      (by intro i hi; simpa using hfail i hi) h (by simpa using hok)
    refine ⟨{ conn with client := some h }, ?_, by
      simp [RPCConnection.isConnected]⟩
    unfold RPCConnection.connect
    rw [hloop]
  · intro hN
    have hloop := connectLoop_all_fail factory conn.maxConnRetries 0
      (by intro i hi; simpa using hfail i (by omega))
    obtain ⟨e, he, hlast⟩ := hloop
    refine ⟨⟨e, ?_, by simpa using hlast⟩, by
      simp [RPCConnection.isConnected, hstart]⟩
    unfold RPCConnection.connect
    rw [he]

/-- C10: the `Change` field of `CreateTransactionArgs` is never read —
two calls whose arguments differ only in it return identical results. -/
theorem C10_change_flag_never_read (wallet : WalletModel)
    (args : CreateTransactionArgs) (b1 b2 : Bool) :
    CreateTransaction wallet { args with change := b1 } =
      CreateTransaction wallet { args with change := b2 } := rfl

/-! ## Instance checks for the claim theorems -/

/-- C1 instantiated on the example scenario. -/
theorem C1_witness :
    ∃ tx, CreateTransaction wOne argsOne = .ok tx ∧
      sumValueOut tx.txOut +
        feeAfter argsOne.txSerializeSize argsOne.feeRate.atomsValue
          { txIn := tx.txIn, txOut := argsOne.outputs } ≤
      sumValueIn tx.txIn :=
  C1_fund_succeeds_and_covers wOne argsOne [uOne] (by decide) rfl
    (by decide) (by decide) (fun t => by show (0 : Int) ≤ 200; norm_num)
    ⟨7, rfl⟩ (fun ad => ⟨[1, 2], rfl⟩) (by decide)

/-- C2 instantiated on the empty UTXO set. -/
theorem C2_witness :
    fundTx wEmpty argsOne.account [] { txIn := [], txOut := argsOne.outputs }
        { atomsValue := sumValueOut argsOne.outputs } argsOne.feeRate
        argsOne.payToAddrScript argsOne.txSerializeSize =
      .error insufficientFundsErr ∧
    CreateTransaction wEmpty argsOne = .error insufficientFundsErr := by
  have hno : ∀ p s, ([] : List Unspent) = p ++ s →
      ¬ winning argsOne.txSerializeSize argsOne.account
        (sumValueOut argsOne.outputs) argsOne.feeRate.atomsValue 0
        { txIn := [], txOut := argsOne.outputs } p := by
    intro p s hps hw
    have hp : p = [] := (List.append_eq_nil.mp hps.symm).1
    subst hp
    exact hw.1 rfl
  exact C2_insufficient_funds_error wEmpty argsOne [] rfl hno

/-- C3 instantiated on the example scenario. -/
theorem C3_witness :
    fundTx wOne "default" [uOne] txZero ⟨100000⟩ ⟨10⟩ payOne serOne =
      .ok (rOne, 1) ∧
    ∀ i ∈ rOne.txIn, i ∈ txZero.txIn ∨
      ∃ u, u ∈ [uOne] ∧ u.spendable = true ∧ u.account = "default" ∧
        i = mkTxIn u :=
  ⟨rfl, C3_inputs_spendable_and_matching wOne "default" [uOne] txZero
    ⟨100000⟩ ⟨10⟩ payOne serOne rOne 1 rfl⟩

/-- C4 instantiated on the example scenario. -/
theorem C4_witness :
    fundTx wOne "default" [uOne] txZero ⟨100000⟩ ⟨10⟩ payOne serOne =
      .ok (rOne, 1) ∧
    (0 ≤ changeOf serOne 10 100000 0 txZero rOne ∧
      (0 < changeOf serOne 10 100000 0 txZero rOne →
        1 = 1 ∧ ∃ ad s, wOne.getNewAddress "default" = .ok ad ∧
          payOne ad = .ok s ∧
          rOne.txOut = txZero.txOut ++
            [⟨⟨changeOf serOne 10 100000 0 txZero rOne⟩, s⟩]) ∧
      (changeOf serOne 10 100000 0 txZero rOne = 0 →
        1 = 0 ∧ rOne.txOut = txZero.txOut)) :=
  ⟨rfl, C4_change_accounting wOne "default" [uOne] txZero ⟨100000⟩ ⟨10⟩
    payOne serOne rOne 1 rfl⟩

/-- C5 instantiated on the example scenario. -/
theorem C5_witness :
    fundTx wOne "default" [uOne] txZero ⟨100000⟩ ⟨10⟩ payOne serOne =
      .ok (rOne, 1) ∧
    ∃ p s, [uOne] = p ++ s ∧
      winning serOne "default" 100000 10 0 txZero p ∧
      (∀ q qs, p = q ++ qs → q ≠ p →
        ¬ winning serOne "default" 100000 10 0 txZero q) ∧
      rOne.txIn = txZero.txIn ++
        (p.filter (eligible "default")).map mkTxIn :=
  ⟨rfl, C5_first_fit wOne "default" [uOne] txZero ⟨100000⟩ ⟨10⟩ payOne
    serOne rOne 1 rfl⟩

/-- C7 instantiated on the failing address provider. -/
theorem C7_witness :
    fundTx wErr argsOne.account [uOne]
        { txIn := [], txOut := argsOne.outputs }
        { atomsValue := sumValueOut argsOne.outputs } argsOne.feeRate
        argsOne.payToAddrScript argsOne.txSerializeSize =
      .error (.external 5) ∧
    ((GoError.external 5 = insufficientFundsErr ∨
        wErr.getNewAddress argsOne.account = .error (.external 5) ∨
        ∃ ad, wErr.getNewAddress argsOne.account = .ok ad ∧
          argsOne.payToAddrScript ad = .error (.external 5)) ∧
      CreateTransaction wErr argsOne = .error (.external 5)) :=
  ⟨rfl, C7_collaborator_error_passthrough wErr argsOne [uOne]
    (.external 5) rfl rfl⟩

/-- C8 instantiated on the example scenario. -/
theorem C8_witness :
    fundTx wOne "default" [uOne] txZero ⟨100000⟩ ⟨10⟩ payOne serOne =
      .ok (rOne, 1) ∧
    ∀ i ∈ rOne.txIn, i ∉ txZero.txIn →
      ∃ u, u ∈ [uOne] ∧ i.previousOutPoint.tree = u.tree ∧
        i.previousOutPoint.hash = 0 ∧ i.previousOutPoint.index = 0 ∧
        i.valueIn = u.amount.copy ∧
        i.valueIn.atomsValue = u.amount.atomsValue :=
  ⟨rfl, C8_outpoint_tree_only wOne "default" [uOne] txZero ⟨100000⟩ ⟨10⟩
    payOne serOne rOne 1 rfl⟩

/-- C9 instantiated on the two-retry connection and the factory that
fails twice then succeeds. -/
theorem C9_witness :
    connTwo.client = none ∧
    ((2 ≤ connTwo.maxConnRetries →
      ∃ conn2, connTwo.connect facTwo = .ok conn2 ∧
        conn2.isConnected = true) ∧
    (connTwo.maxConnRetries < 2 →
      (∃ e, connTwo.connect facTwo = .error (.connectFailed e) ∧
        facTwo connTwo.maxConnRetries = .error e) ∧
      connTwo.isConnected = false)) :=
  ⟨rfl, C9_connect_bounded_retry connTwo facTwo 2 99 rfl
    (fun i hi => ⟨.external i, by unfold facTwo; rw [if_pos hi]⟩) rfl⟩

end Coinharness
